import Mathlib

/-!
Verification of the deduplication / relevance pipeline of the ai-news-agent
repository.  Each Python function referenced by the specification is shallowly
embedded as an executable Lean definition, translated clause by clause from the
source under src/, and the claimed properties are proved (or refuted) about
those definitions.

Conventions used throughout:
* machine floats become exact rationals (ℚ);
* wall-clock instants become rationals or integers (seconds or hours);
* external collaborators (the article store, the embedding model, the LLM)
  become explicit function parameters ("oracles");
* `async` functions become pure functions with explicit state threading, and a
  cooperative interleaving is modelled as a trace of events where needed.
-/

namespace AINews

/-! ## Deduplication: title similarity and the two-threshold rule
Source: src/services/deduplication.py, DeduplicationService. -/

/-- Stop words removed before the Jaccard overlap, exactly the set in
`_calculate_title_similarity`. -/
def stopWords : List String :=
  ["the", "a", "an", "and", "or", "but", "in", "on", "at", "to", "for", "of",
   "with", "by"]

/-- Token set of a title: lower-case, split on whitespace (Python `str.split`
drops empty pieces), stop words removed.  Mirrors the `tokens1`/`tokens2`
computation in `_calculate_title_similarity`. -/
def titleTokens (title : String) : Finset String :=
  (((title.toLower.split Char.isWhitespace).filter (fun t => t ≠ "")).filter
    (fun t => t ∉ stopWords)).toFinset

/-- Embeds `DeduplicationService._calculate_title_similarity`: stop-word
stripped Jaccard overlap of the two titles, 0 when either token set is empty. -/
def calculate_title_similarity (title1 title2 : String) : ℚ :=
  let tokens1 := titleTokens title1
  let tokens2 := titleTokens title2
  if tokens1 = ∅ ∨ tokens2 = ∅ then 0
  else ((tokens1 ∩ tokens2).card : ℚ) / ((tokens1 ∪ tokens2).card : ℚ)

/-- Embeds `DeduplicationService._is_likely_duplicate`.  `thr` is the
configured `similarity_threshold` (default 0.85 in config.py), `sim` the
cosine similarity reported by the store, `articleDay`/`matchDay` the calendar
dates (`published_at.date()`) of the two items. -/
def is_likely_duplicate (thr : ℚ) (sim : ℚ) (articleDay matchDay : ℤ)
    (articleTitle matchTitle : String) : Bool :=
  if 95/100 < sim then true
  else if thr < sim then
    if articleDay = matchDay then true
    else if 8/10 < calculate_title_similarity articleTitle matchTitle then true
    else false
  else false

/-- C1: the duplicate verdict of `_is_likely_duplicate` follows the
two-threshold rule.  A candidate is accepted exactly when its similarity
exceeds the hard threshold 0.95, or it exceeds the configured soft threshold
and an auxiliary signal agrees (same calendar publication date, or stop-word
stripped Jaccard title overlap above 0.8).  In particular a candidate at or
below the soft threshold is never accepted, and one between the thresholds is
accepted exactly when an auxiliary signal agrees. -/
theorem is_likely_duplicate_two_threshold (thr sim : ℚ) (d1 d2 : ℤ)
    (t1 t2 : String) :
    is_likely_duplicate thr sim d1 d2 t1 t2 = true ↔
      (95/100 < sim ∨
        (thr < sim ∧ (d1 = d2 ∨ 8/10 < calculate_title_similarity t1 t2))) := by
  unfold is_likely_duplicate
  split_ifs with h1 h2 h3 h4 <;> simp_all

/-! ## Deduplication: batch partitioning (`process_articles_for_duplicates`)
The Supabase article store is an external collaborator; it is modelled by a
`Store` whose fields mirror the two queries `find_duplicates` issues: the
exact-URL lookup (`_find_url_duplicate`) and the `match_articles` similarity
RPC (`_find_similarity_duplicate`).  Within one call to
`process_articles_for_duplicates` the store is not written, so it is a fixed
parameter of the whole batch. -/

/-- Model of `models/articles.py` `Article`, restricted to the fields that the
deduplication and scoring code reads or writes.  `published_at` is an instant
measured in hours; ids are natural numbers standing for UUIDs. -/
structure Article where
  id : Option ℕ
  title : String
  content : String
  url : String
  published_at : ℤ
  embedding : Option (List ℚ)
  is_duplicate : Bool
  duplicate_of : Option ℕ
  summary : Option String
  relevance_score : Option ℚ
  categories : List String
  key_points : List String
  deriving DecidableEq, Repr

/-- Calendar date of an instant measured in hours: `published_at.date()`. -/
def dateOf (ts : ℤ) : ℤ := ts.fdiv 24

/-- One row returned by the `match_articles` similarity RPC: id, cosine
similarity, publication instant and title of the stored candidate. -/
structure MatchRec where
  id : ℕ
  similarity : ℚ
  published_at : ℤ
  title : String
  deriving DecidableEq, Repr

/-- The article store as seen by `DeduplicationService`:
`urlDuplicate` models the `articles` table query of `_find_url_duplicate`
(exact URL, `is_duplicate = false`, limit 1); `matchArticles` models the
`match_articles` RPC of `_find_similarity_duplicate`; `storeIds` is the set of
ids of stored rows, used to state which ids the two queries may return. -/
structure Store where
  urlDuplicate : String → Option ℕ
  matchArticles : List ℚ → List MatchRec
  storeIds : List ℕ

/-- Embeds `_find_similarity_duplicate`: skip candidates older than the 48-hour
cutoff, return the id of the first candidate passing `_is_likely_duplicate`.
The Python guard `if not article.embedding` treats both a missing and an empty
vector as absent. -/
def find_similarity_duplicate (thr : ℚ) (store : Store) (now : ℤ)
    (check_recent_hours : ℤ) (a : Article) : Option ℕ :=
  match a.embedding with
  | none => none
  | some [] => none
  | some (x :: xs) =>
    let cutoff := now - check_recent_hours
    (store.matchArticles (x :: xs)).findSome? fun m =>
      if m.published_at < cutoff then none
      else if is_likely_duplicate thr m.similarity (dateOf a.published_at)
          (dateOf m.published_at) a.title m.title then some m.id
      else none

/-- Embeds `find_duplicates`: URL match first, then (generating the embedding
through the `embedArticle` oracle when absent — again `if not
article.embedding` treats `[]` as absent) the similarity search.  Returns the
verdict together with the article, whose `embedding` field may have been
filled in. -/
def find_duplicates (thr : ℚ) (store : Store)
    (embedArticle : String → String → List ℚ) (now : ℤ) (a : Article) :
    Option ℕ × Article :=
  match store.urlDuplicate a.url with
  | some i => (some i, a)
  | none =>
    let a2 := match a.embedding with
      | none => { a with embedding := some (embedArticle a.title a.content) }
      | some [] => { a with embedding := some (embedArticle a.title a.content) }
      | some (_ :: _) => a
    (find_similarity_duplicate thr store now 48 a2, a2)

/-- Embeds `process_articles_for_duplicates`: iterate in list order, flag each
article whose `find_duplicates` verdict is positive (`is_duplicate := true`,
`duplicate_of := the verdict`) into the duplicates partition, pass the rest
through as unique. -/
def process_articles_for_duplicates (thr : ℚ) (store : Store)
    (embedArticle : String → String → List ℚ) (now : ℤ) :
    List Article → List Article × List Article
  | [] => ([], [])
  | a :: rest =>
    let r := find_duplicates thr store embedArticle now a
    let p := process_articles_for_duplicates thr store embedArticle now rest
    match r.1 with
    | some i =>
      (p.1, ({ r.2 with is_duplicate := true, duplicate_of := some i }) :: p.2)
    | none => (r.2 :: p.1, p.2)

/-- Helper: a positive `findSome?` scan exhibits a list member on which the
scanning function fires. -/
theorem findSome_mem {α β : Type} (f : α → Option β) :
    ∀ (l : List α) (b : β), l.findSome? f = some b → ∃ a ∈ l, f a = some b := by
  intro l b
  induction l with
  | nil => intro h; simp [List.findSome?] at h
  | cons x xs ih =>
    intro h
    rw [List.findSome?_cons] at h
    cases hx : f x with
    | some v =>
      rw [hx] at h
      simp at h
      exact ⟨x, List.mem_cons_self x xs, by rw [hx, h]⟩
    | none =>
      rw [hx] at h
      obtain ⟨a, ha, hfa⟩ := ih h
      exact ⟨a, List.mem_cons_of_mem x ha, hfa⟩

/-- Helper: a positive verdict of `find_duplicates` is an id returned by one of
the two store queries. -/
theorem find_duplicates_mem_store (thr : ℚ) (store : Store)
    (embedArticle : String → String → List ℚ) (now : ℤ) (a : Article) (i : ℕ)
    (hurl : ∀ u j, store.urlDuplicate u = some j → j ∈ store.storeIds)
    (hmatch : ∀ e m, m ∈ store.matchArticles e → m.id ∈ store.storeIds)
    (h : (find_duplicates thr store embedArticle now a).1 = some i) :
    i ∈ store.storeIds := by
  unfold find_duplicates at h
  cases hu : store.urlDuplicate a.url with
  | some j =>
    rw [hu] at h
    simp at h
    exact h ▸ hurl a.url j hu
  | none =>
    rw [hu] at h
    simp only at h
    set a2 := match a.embedding with
      | none => { a with embedding := some (embedArticle a.title a.content) }
      | some [] => { a with embedding := some (embedArticle a.title a.content) }
      | some (_ :: _) => a with ha2
    unfold find_similarity_duplicate at h
    cases he : a2.embedding with
    | none => rw [he] at h; simp at h
    | some v =>
      cases v with
      | nil => rw [he] at h; simp at h
      | cons x xs =>
        rw [he] at h
        simp only at h
        obtain ⟨m, hm, hfm⟩ := findSome_mem _ _ _ h
        have : m.id = i := by
          by_cases h1 : m.published_at < now - 48
          · simp [h1] at hfm
          · by_cases h2 : is_likely_duplicate thr m.similarity
                (dateOf a2.published_at) (dateOf m.published_at) a2.title m.title
            · simpa [h1, h2] using hfm
            · simp [h1, h2] at hfm
        exact this ▸ hmatch _ m hm

/-- Helper: every article in the duplicates partition is flagged and its
back-reference is an id of a stored row. -/
theorem process_articles_duplicates_aux (thr : ℚ) (store : Store)
    (embedArticle : String → String → List ℚ) (now : ℤ)
    (hurl : ∀ u j, store.urlDuplicate u = some j → j ∈ store.storeIds)
    (hmatch : ∀ e m, m ∈ store.matchArticles e → m.id ∈ store.storeIds) :
    ∀ (articles : List Article),
      ∀ d ∈ (process_articles_for_duplicates thr store embedArticle now articles).2,
        d.is_duplicate = true ∧
          ∃ j, d.duplicate_of = some j ∧ j ∈ store.storeIds := by
  intro articles
  induction articles with
  | nil => intro d hd; simp [process_articles_for_duplicates] at hd
  | cons a rest ih =>
    intro d hd
    cases hr : (find_duplicates thr store embedArticle now a).1 with
    | some i =>
      simp only [process_articles_for_duplicates, hr, List.mem_cons] at hd
      rcases hd with hd | hd
      · subst hd
        refine ⟨rfl, i, rfl, ?_⟩
        exact find_duplicates_mem_store thr store embedArticle now a i hurl hmatch hr
      · exact ih d hd
    | none =>
      simp only [process_articles_for_duplicates, hr] at hd
      exact ih d hd

/-- C2 (amended): processing a batch is a left-to-right pass against a store
that is fixed for the whole batch.  Every article placed in the duplicates
partition has `is_duplicate = true` and a non-null `duplicate_of`, and that
back-reference always names an already-stored article; when the batch consists
of new articles (none of their ids already stored), a flagged article's
`duplicate_of` therefore never references another batch member — in particular
never a later one. -/
theorem process_articles_duplicates_reference_store (thr : ℚ) (store : Store)
    (embedArticle : String → String → List ℚ) (now : ℤ)
    (articles : List Article)
    (hurl : ∀ u j, store.urlDuplicate u = some j → j ∈ store.storeIds)
    (hmatch : ∀ e m, m ∈ store.matchArticles e → m.id ∈ store.storeIds)
    (hfresh : ∀ b ∈ articles, ∀ j, b.id = some j → j ∉ store.storeIds) :
    ∀ d ∈ (process_articles_for_duplicates thr store embedArticle now articles).2,
      d.is_duplicate = true ∧
        (∃ j, d.duplicate_of = some j ∧ j ∈ store.storeIds) ∧
        (∀ b ∈ articles, ∀ j, d.duplicate_of = some j → b.id ≠ some j) := by
  intro d hd
  obtain ⟨h1, j, h2, h3⟩ :=
    process_articles_duplicates_aux thr store embedArticle now hurl hmatch articles d hd
  refine ⟨h1, ⟨j, h2, h3⟩, ?_⟩
  intro b hb j2 hj2 hbid
  rw [h2] at hj2
  injection hj2 with hjj
  subst hjj
  exact hfresh b hb j hbid h3

/-- Concrete store for exercising the batch partition: one stored article with
id 100, returned by the similarity RPC with similarity 0.96 for every query. -/
def c2Store : Store where
  urlDuplicate := fun _ => none
  matchArticles := fun _ => [⟨100, 96/100, 0, "shared title"⟩]
  storeIds := [100]

/-- Concrete embedding oracle: every article embeds to the same unit vector. -/
def c2Embed : String → String → List ℚ := fun _ _ => [1]

/-- First batch article: id 1, already embedded. -/
def c2A : Article :=
  ⟨some 1, "shared title", "c", "http://a", 0, some [1], false, none, none,
    none, [], []⟩

/-- Second batch article: near-identical to `c2A` (same title, content,
embedding and publication instant), later in iteration order. -/
def c2B : Article := { c2A with id := some 2, url := "http://b" }

/-- C2 counterexample: in the batch `[c2A, c2B]` the two articles are
near-identical and `c2B` comes later, yet when `c2B` is flagged duplicate its
`duplicate_of` is the already-stored article 100, not `c2A.id = 1`: the claim
"if B is flagged duplicate then its duplicate_of is A's id" fails, because
`find_duplicates` only consults the store, which is fixed during the batch. -/
theorem process_articles_first_seen_counterexample :
    ((process_articles_for_duplicates (85/100) c2Store c2Embed 0
        [c2A, c2B]).2.map fun d => (d.id, d.is_duplicate, d.duplicate_of))
      = [(some 1, true, some 100), (some 2, true, some 100)] ∧
    c2A.id = some 1 ∧ (100 : ℕ) ≠ 1 := by
  refine ⟨?_, rfl, by decide⟩
  norm_num [process_articles_for_duplicates, find_duplicates,
    find_similarity_duplicate, is_likely_duplicate, c2Store, c2Embed, c2A, c2B,
    dateOf]

/-- The record produced for `c2B` by the batch partition. -/
def c2FlaggedB : Article := { c2B with is_duplicate := true, duplicate_of := some 100 }

/-- Witness for `process_articles_duplicates_reference_store` at the concrete
batch `[c2A, c2B]` over `c2Store`. -/
theorem process_articles_duplicates_reference_store_witness :
    c2FlaggedB.is_duplicate = true ∧
      (∃ j, c2FlaggedB.duplicate_of = some j ∧ j ∈ c2Store.storeIds) ∧
      (∀ b ∈ [c2A, c2B], ∀ j, c2FlaggedB.duplicate_of = some j →
        b.id ≠ some j) :=
  process_articles_duplicates_reference_store (85/100) c2Store c2Embed 0
    [c2A, c2B]
    (by intro u j h; cases h)
    (by intro e m hm; simp only [c2Store, List.mem_singleton] at hm; subst hm; decide)
    (by intro b hb j hj; fin_cases hb <;> simp only [c2A, c2B] at hj <;>
      injection hj with hj2 <;> subst hj2 <;> decide)
    c2FlaggedB
    (by norm_num [process_articles_for_duplicates, find_duplicates,
      find_similarity_duplicate, is_likely_duplicate, c2Store, c2Embed, c2A,
      c2B, c2FlaggedB, dateOf])

/-! ## Rate limiter (token bucket)
Source: src/services/rate_limiter.py, `RateLimiter`. -/

/-- Model of `RateLimitConfig` (the `cooldown_seconds` field only affects
`wait_for_tokens` sleep times and is omitted). -/
structure RateLimitConfig where
  requests_per_second : ℚ
  burst_limit : ℚ

/-- Mutable state of a `RateLimiter`: current token count and the timestamp of
the last refill. -/
structure RateLimiterState where
  tokens : ℚ
  last_update : ℚ

/-- `RateLimiter.__init__`: the bucket starts full (`tokens = burst_limit`). -/
def rateLimiterInit (config : RateLimitConfig) (now : ℚ) : RateLimiterState :=
  { tokens := config.burst_limit, last_update := now }

/-- The refill step at the top of `acquire`: add `elapsed *
requests_per_second` tokens, capped at `burst_limit`. -/
def refillTokens (config : RateLimitConfig) (s : RateLimiterState) (now : ℚ) : ℚ :=
  min config.burst_limit
    (s.tokens + (now - s.last_update) * config.requests_per_second)

/-- Embeds `RateLimiter.acquire`: refill, then consume `n` tokens and return
`true` when at least `n` are available, otherwise keep the refilled count and
return `false`. -/
def acquire (config : RateLimitConfig) (s : RateLimiterState) (now n : ℚ) :
    RateLimiterState × Bool :=
  let t := refillTokens config s now
  if n ≤ t then ({ tokens := t - n, last_update := now }, true)
  else ({ tokens := t, last_update := now }, false)

/-- A sequence of `acquire` calls, each a (time, requested tokens) pair;
returns the final state together with the total number of tokens consumed by
the successful calls. -/
def runAcquires (config : RateLimitConfig) :
    RateLimiterState → List (ℚ × ℚ) → RateLimiterState × ℚ
  | s, [] => (s, 0)
  | s, c :: rest =>
    let r := acquire config s c.1 c.2
    let p := runAcquires config r.1 rest
    (p.1, (if r.2 = true then c.2 else 0) + p.2)

/-- Helper: whatever `acquire` consumes plus what it leaves in the bucket is
exactly the refilled amount. -/
theorem acquire_consumed_add_tokens (config : RateLimitConfig)
    (s : RateLimiterState) (now n : ℚ) :
    (if (acquire config s now n).2 = true then n else 0) +
      (acquire config s now n).1.tokens = refillTokens config s now := by
  unfold acquire
  by_cases h : n ≤ refillTokens config s now <;> simp [h]

/-- Helper: `acquire` stamps the state with the call time. -/
theorem acquire_last_update (config : RateLimitConfig) (s : RateLimiterState)
    (now n : ℚ) : (acquire config s now n).1.last_update = now := by
  unfold acquire
  by_cases h : n ≤ refillTokens config s now <;> simp [h]

/-- Helper: state invariants and the potential bound along a run of `acquire`
calls at nondecreasing times.  The bound is the token-bucket potential
argument: consumed + final tokens never exceeds the initial tokens plus what
the elapsed time can refill. -/
theorem runAcquires_bound (config : RateLimitConfig)
    (hrps : 0 ≤ config.requests_per_second)
    (hburst : 0 ≤ config.burst_limit) :
    ∀ (calls : List (ℚ × ℚ)) (s : RateLimiterState),
      0 ≤ s.tokens → s.tokens ≤ config.burst_limit →
      (∀ p ∈ calls, 0 ≤ p.2) →
      List.Chain (fun a b => a ≤ b) s.last_update (calls.map Prod.fst) →
      (runAcquires config s calls).2 + (runAcquires config s calls).1.tokens
          ≤ s.tokens + ((runAcquires config s calls).1.last_update -
              s.last_update) * config.requests_per_second ∧
        0 ≤ (runAcquires config s calls).1.tokens ∧
        (runAcquires config s calls).1.tokens ≤ config.burst_limit ∧
        s.last_update ≤ (runAcquires config s calls).1.last_update ∧
        ((runAcquires config s calls).1.last_update = s.last_update ∨
          (runAcquires config s calls).1.last_update ∈ calls.map Prod.fst) := by
  intro calls
  induction calls with
  | nil =>
    intro s h0 hb _ _
    refine ⟨by simp [runAcquires], h0, hb, le_refl _, Or.inl rfl⟩
  | cons c rest ih =>
    intro s h0 hb hn hchain
    have hsc : s.last_update ≤ c.1 := by
      cases hchain with
      | cons h _ => exact h
    have hchain2 : List.Chain (fun a b => a ≤ b) c.1 (rest.map Prod.fst) := by
      cases hchain with
      | cons _ h => exact h
    have hrefill_le_burst : refillTokens config s c.1 ≤ config.burst_limit :=
      min_le_left _ _
    have hrefill_le_lin : refillTokens config s c.1 ≤
        s.tokens + (c.1 - s.last_update) * config.requests_per_second :=
      min_le_right _ _
    have hrefill_nonneg : 0 ≤ refillTokens config s c.1 := by
      apply le_min hburst
      have : 0 ≤ (c.1 - s.last_update) * config.requests_per_second :=
        mul_nonneg (by linarith) hrps
      linarith
    set s1 := (acquire config s c.1 c.2).1 with hs1
    have hcons := acquire_consumed_add_tokens config s c.1 c.2
    have hlu1 : s1.last_update = c.1 := acquire_last_update config s c.1 c.2
    have hn1 : 0 ≤ c.2 := hn c (List.mem_cons_self _ _)
    have h1nonneg : 0 ≤ s1.tokens := by
      unfold acquire at hs1
      by_cases h : c.2 ≤ refillTokens config s c.1 <;> rw [hs1] <;>
        simp [h] <;> linarith [hrefill_nonneg]
    have h1burst : s1.tokens ≤ config.burst_limit := by
      unfold acquire at hs1
      by_cases h : c.2 ≤ refillTokens config s c.1 <;> rw [hs1] <;>
        simp [h] <;> linarith [hrefill_le_burst, hn1]
    have hchain1 : List.Chain (fun a b => a ≤ b) s1.last_update
        (rest.map Prod.fst) := by rw [hlu1]; exact hchain2
    obtain ⟨ihbound, ihnonneg, ihburst, ihlu, ihmem⟩ :=
      ih s1 h1nonneg h1burst (fun p hp => hn p (List.mem_cons_of_mem _ hp)) hchain1
    have hrun : runAcquires config s (c :: rest) =
        ((runAcquires config s1 rest).1,
          (if (acquire config s c.1 c.2).2 = true then c.2 else 0) +
            (runAcquires config s1 rest).2) := rfl
    have hconsumed_nonneg : 0 ≤
        (if (acquire config s c.1 c.2).2 = true then c.2 else 0) := by
      by_cases h : (acquire config s c.1 c.2).2 = true <;> simp [h, hn1]
    refine ⟨?_, by rw [hrun]; exact ihnonneg, by rw [hrun]; exact ihburst,
      ?_, ?_⟩
    · rw [hrun]
      simp only
      rw [hlu1] at ihbound
      have : (c.1 - s.last_update) * config.requests_per_second +
          ((runAcquires config s1 rest).1.last_update - c.1) *
            config.requests_per_second =
          ((runAcquires config s1 rest).1.last_update - s.last_update) *
            config.requests_per_second := by ring
      nlinarith [ihbound, hcons, hrefill_le_lin]
    · rw [hrun]
      simp only
      rw [hlu1] at ihlu
      linarith
    · rw [hrun]
      simp only
      rcases ihmem with h | h
      · rw [h, hlu1]
        exact Or.inr (List.mem_cons_self _ _)
      · exact Or.inr (List.mem_cons_of_mem _ h)

/-- C3: token-bucket conservation.  (1) The stored token count never exceeds
`burst_limit` after any `acquire`. (2) A failed `acquire` consumes nothing: it
leaves exactly the refilled amount in the bucket. (3) Over any run of
`acquire` calls at nondecreasing times all lying within a window of length
`T` that starts at the first call, the total number of tokens consumed by the
successful calls never exceeds `burst_limit + requests_per_second * T`. -/
theorem rate_limiter_conservation (config : RateLimitConfig)
    (hrps : 0 ≤ config.requests_per_second)
    (hburst : 0 ≤ config.burst_limit) :
    (∀ (s : RateLimiterState) (now n : ℚ), 0 ≤ n →
      (acquire config s now n).1.tokens ≤ config.burst_limit) ∧
    (∀ (s : RateLimiterState) (now n : ℚ),
      (acquire config s now n).2 = false →
      (acquire config s now n).1.tokens = refillTokens config s now) ∧
    (∀ (c : ℚ × ℚ) (rest : List (ℚ × ℚ)) (s : RateLimiterState) (T : ℚ),
      0 ≤ s.tokens → s.last_update ≤ c.1 →
      (∀ p ∈ c :: rest, 0 ≤ p.2) →
      List.Chain (fun a b => a ≤ b) c.1 (rest.map Prod.fst) →
      (∀ p ∈ c :: rest, p.1 ≤ c.1 + T) →
      (runAcquires config s (c :: rest)).2 ≤
        config.burst_limit + config.requests_per_second * T) := by
  refine ⟨?_, ?_, ?_⟩
  · intro s now n hn
    unfold acquire
    by_cases h : n ≤ refillTokens config s now <;> simp [h]
    · have := min_le_left config.burst_limit
        (s.tokens + (now - s.last_update) * config.requests_per_second)
      unfold refillTokens
      linarith [this]
    · exact min_le_left _ _
  · intro s now n h
    unfold acquire at h ⊢
    by_cases hc : n ≤ refillTokens config s now
    · simp [hc] at h
    · simp [hc]
  · intro c rest s T h0 hsc hn hchain hwin
    have hrefill_le_burst : refillTokens config s c.1 ≤ config.burst_limit :=
      min_le_left _ _
    have hrefill_nonneg : 0 ≤ refillTokens config s c.1 := by
      apply le_min hburst
      have : 0 ≤ (c.1 - s.last_update) * config.requests_per_second :=
        mul_nonneg (by linarith) hrps
      linarith
    set s1 := (acquire config s c.1 c.2).1 with hs1
    have hcons := acquire_consumed_add_tokens config s c.1 c.2
    have hlu1 : s1.last_update = c.1 := acquire_last_update config s c.1 c.2
    have hn1 : 0 ≤ c.2 := hn c (List.mem_cons_self _ _)
    have h1nonneg : 0 ≤ s1.tokens := by
      unfold acquire at hs1
      by_cases h : c.2 ≤ refillTokens config s c.1 <;> rw [hs1] <;>
        simp [h] <;> linarith [hrefill_nonneg]
    have h1burst : s1.tokens ≤ config.burst_limit := by
      unfold acquire at hs1
      by_cases h : c.2 ≤ refillTokens config s c.1 <;> rw [hs1] <;>
        simp [h] <;> linarith [hrefill_le_burst, hn1]
    have hchain1 : List.Chain (fun a b => a ≤ b) s1.last_update
        (rest.map Prod.fst) := by
      rw [hlu1]; exact hchain
    obtain ⟨ihbound, ihnonneg, _, ihlu, ihmem⟩ :=
      runAcquires_bound config hrps hburst rest s1 h1nonneg h1burst
        (fun p hp => hn p (List.mem_cons_of_mem _ hp)) hchain1
    have hrun : runAcquires config s (c :: rest) =
        ((runAcquires config s1 rest).1,
          (if (acquire config s c.1 c.2).2 = true then c.2 else 0) +
            (runAcquires config s1 rest).2) := rfl
    have hfin_le : (runAcquires config s1 rest).1.last_update ≤ c.1 + T := by
      rcases ihmem with h | h
      · rw [h, hlu1]
        exact hwin c (List.mem_cons_self _ _)
      · obtain ⟨p, hp, hpt⟩ := List.mem_map.mp h
        rw [← hpt]
        exact hwin p (List.mem_cons_of_mem _ hp)
    have hmul : ((runAcquires config s1 rest).1.last_update - c.1) *
        config.requests_per_second ≤ T * config.requests_per_second := by
      apply mul_le_mul_of_nonneg_right _ hrps
      linarith
    rw [hrun]
    simp only
    rw [hlu1] at ihbound
    nlinarith [ihbound, hcons, ihnonneg, hrefill_le_burst]

/-- Witness for `rate_limiter_conservation`: a limiter with 1 request/second
and burst 2, started full at time 0, over two unit acquisitions at times 0 and
1 (window length 1). -/
theorem rate_limiter_conservation_witness :
    (runAcquires ⟨1, 2⟩ (rateLimiterInit ⟨1, 2⟩ 0) [(0, 1), (1, 1)]).2 ≤
      2 + 1 * 1 :=
  (rate_limiter_conservation ⟨1, 2⟩ (by norm_num) (by norm_num)).2.2
    (0, 1) [(1, 1)] (rateLimiterInit ⟨1, 2⟩ 0) 1
    (by norm_num [rateLimiterInit])
    (by norm_num [rateLimiterInit])
    (by intro p hp; fin_cases hp <;> norm_num)
    (by norm_num [List.chain_cons])
    (by intro p hp; fin_cases hp <;> norm_num)

/-! ## Circuit breaker
Source: src/fetchers/base.py, `BaseFetcher.fetch_with_result` and
`BaseFetcher._is_circuit_breaker_open`. -/

/-- Breaker-relevant state of a `BaseFetcher`: consecutive error count and the
instant (in seconds) until which the breaker is open, when it is. -/
structure FetcherState where
  error_count : ℕ
  circuit_breaker_open_until : Option ℚ
  deriving DecidableEq, Repr

/-- `BaseFetcher.__init__`: no errors, breaker closed. -/
def fetcherInit : FetcherState :=
  { error_count := 0, circuit_breaker_open_until := none }

/-- Embeds `_is_circuit_breaker_open`: closed when no deadline is set; when
the deadline has passed, reset both the deadline and the error count and
report closed; otherwise report open. -/
def is_circuit_breaker_open (now : ℚ) (s : FetcherState) :
    Bool × FetcherState :=
  match s.circuit_breaker_open_until with
  | none => (false, s)
  | some u =>
    if u ≤ now then
      (false, { error_count := 0, circuit_breaker_open_until := none })
    else (true, s)

/-- Outcome of `fetch_with_result` as far as the breaker is concerned: whether
the underlying `self.fetch` coroutine was invoked at all, and whether the call
succeeded (`errors == []`). -/
structure FetchOutcome where
  attempted : Bool
  success : Bool
  deriving DecidableEq, Repr

/-- The failure bookkeeping of the `except` handler in `fetch_with_result`:
increment the consecutive error count and open the breaker for 5 minutes
(300 seconds) once the count reaches 5. -/
def recordFailure (now : ℚ) (s : FetcherState) : FetcherState :=
  let ec := s.error_count + 1
  if 5 ≤ ec then
    { error_count := ec, circuit_breaker_open_until := some (now + 300) }
  else { s with error_count := ec }

/-- Embeds `fetch_with_result`; the `fetchOk` oracle stands for the underlying
`self.fetch` call succeeding or raising.  An open breaker raises `FetchError`
before fetching, which the handler records like any failure; otherwise the
fetch runs — success resets the consecutive error count, failure is recorded
by `recordFailure`. -/
def fetch_with_result (now : ℚ) (fetchOk : Bool) (s : FetcherState) :
    FetchOutcome × FetcherState :=
  let r := is_circuit_breaker_open now s
  if r.1 then (⟨false, false⟩, recordFailure now r.2)
  else if fetchOk then (⟨true, true⟩, { r.2 with error_count := 0 })
  else (⟨true, false⟩, recordFailure now r.2)

/-- A sequence of `fetch_with_result` calls, each a (time, fetch outcome)
pair, folded over the fetcher state. -/
def runFetches : FetcherState → List (ℚ × Bool) → FetcherState
  | s, [] => s
  | s, c :: rest => runFetches (fetch_with_result c.1 c.2 s).2 rest

/-- C4: circuit-breaker lifecycle.  (1) From a fresh fetcher, 5 consecutive
failed fetch attempts leave the breaker open for a 5-minute cooldown ending at
`t5 + 300` with error count 5.  (2) While the breaker is open (the deadline
not yet reached), every `fetch_with_result` call fails fast without invoking
the underlying fetch.  (3) Once the cooldown deadline has elapsed, the next
attempt is allowed through to the upstream.  (4) A successful attempt that
was allowed through resets the consecutive failure count to 0. -/
theorem circuit_breaker_lifecycle :
    (∀ t1 t2 t3 t4 t5 : ℚ,
      runFetches fetcherInit
          [(t1, false), (t2, false), (t3, false), (t4, false), (t5, false)] =
        { error_count := 5, circuit_breaker_open_until := some (t5 + 300) }) ∧
    (∀ (s : FetcherState) (u now : ℚ) (fetchOk : Bool),
      s.circuit_breaker_open_until = some u → now < u →
      (fetch_with_result now fetchOk s).1.attempted = false) ∧
    (∀ (s : FetcherState) (u now : ℚ) (fetchOk : Bool),
      s.circuit_breaker_open_until = some u → u ≤ now →
      (fetch_with_result now fetchOk s).1.attempted = true) ∧
    (∀ (s : FetcherState) (now : ℚ),
      (fetch_with_result now true s).1.attempted = true →
      (fetch_with_result now true s).2.error_count = 0) := by
  refine ⟨?_, ?_, ?_, ?_⟩
  · intro t1 t2 t3 t4 t5
    simp [runFetches, fetch_with_result, is_circuit_breaker_open,
      recordFailure, fetcherInit]
  · intro s u now fetchOk hu hnow
    unfold fetch_with_result is_circuit_breaker_open
    rw [hu]
    have : ¬ u ≤ now := not_le.mpr hnow
    simp [this]
  · intro s u now fetchOk hu hnow
    unfold fetch_with_result is_circuit_breaker_open
    rw [hu]
    by_cases hf : fetchOk <;> simp [hnow, hf]
  · intro s now _
    unfold fetch_with_result
    cases h : (is_circuit_breaker_open now s).1 <;> simp [h]
    unfold fetch_with_result at *
    simp_all

/-- Witness for `circuit_breaker_lifecycle`: a breaker open until time 10,
probed at time 3, fast-fails without an upstream call; probed at time 12, lets
the (successful) call through and resets the failure count. -/
theorem circuit_breaker_lifecycle_witness :
    (fetch_with_result 3 true ⟨5, some 10⟩).1.attempted = false ∧
      (fetch_with_result 12 true ⟨5, some 10⟩).1.attempted = true ∧
      (fetch_with_result 12 true ⟨5, some 10⟩).2.error_count = 0 :=
  ⟨circuit_breaker_lifecycle.2.1 ⟨5, some 10⟩ 10 3 true rfl (by norm_num),
    circuit_breaker_lifecycle.2.2.1 ⟨5, some 10⟩ 10 12 true rfl (by norm_num),
    circuit_breaker_lifecycle.2.2.2 ⟨5, some 10⟩ 12
      (circuit_breaker_lifecycle.2.2.1 ⟨5, some 10⟩ 10 12 true rfl
        (by norm_num))⟩

/-! ## Scheduler: re-entrancy guard and non-overlap
Source: src/services/scheduler.py, `ScheduledTask.execute` and
`TaskScheduler.run_task_now`.

`execute` is a coroutine: it checks `is_running`, sets it, awaits the task
function (a suspension point where other calls can interleave), and clears
the flag in `finally`.  A concurrent history of calls to `execute` for one
task is modelled as a trace of events: `start t` is a call passing the guard
at time `t` (setting `is_running`), `finish t` is its `finally` clause at
time `t`, and `skipped t` is a call observing `is_running = true` and
returning immediately.  Both the scheduler loop and `run_task_now` invoke the
same `execute`, so both produce the same event kinds. -/

/-- One observable event of a concurrent history of `execute` calls. -/
inductive TaskEvent
  | start (t : ℚ)
  | finish (t : ℚ)
  | skipped (t : ℚ)
  deriving DecidableEq, Repr

/-- Timestamp of an event. -/
def timeOf : TaskEvent → ℚ
  | .start t => t
  | .finish t => t
  | .skipped t => t

/-- Semantics of one event against the `is_running` flag, as implemented by
`execute`: a call can pass the guard only when the flag is clear; a call is
skipped only when the flag is set; the `finally` clause clears a set flag.
Any other combination cannot be produced by the code. -/
def stepRun : Bool → TaskEvent → Option Bool
  | false, .start _ => some true
  | true, .skipped _ => some true
  | true, .finish _ => some false
  | _, _ => none

/-- A trace is valid from a given flag state when every event follows the
`execute` semantics. -/
def validFrom : Bool → List TaskEvent → Bool
  | _, [] => true
  | r, e :: es =>
    match stepRun r e with
    | some r2 => validFrom r2 es
    | none => false

/-- Collect the `[start, end]` intervals of the completed executions of a
trace, pairing each `start` with the next `finish`. -/
def intervalsFrom : Option ℚ → List TaskEvent → List (ℚ × ℚ)
  | _, [] => []
  | none, .start t :: es => intervalsFrom (some t) es
  | some t0, .finish t :: es => (t0, t) :: intervalsFrom none es
  | p, .skipped _ :: es => intervalsFrom p es
  | none, .finish _ :: es => intervalsFrom none es
  | some t0, .start _ :: es => intervalsFrom (some t0) es

/-- The completed execution intervals of a trace. -/
def intervals (es : List TaskEvent) : List (ℚ × ℚ) := intervalsFrom none es

/-- Helper: the interval collection of a valid chronological trace is
chronologically sorted, with well-formed intervals whose start times come
from the pending start or from trace events. -/
theorem intervalsFrom_spec :
    ∀ (es : List TaskEvent) (r : Bool) (pending : Option ℚ),
      validFrom r es = true →
      List.Pairwise (fun a b => timeOf a < timeOf b) es →
      (r = false → pending = none) →
      (∀ t0, pending = some t0 → r = true ∧ ∀ e ∈ es, t0 < timeOf e) →
      List.Pairwise (fun I J => I.2 < J.1) (intervalsFrom pending es) ∧
        (∀ I ∈ intervalsFrom pending es, I.1 < I.2) ∧
        (∀ I ∈ intervalsFrom pending es,
          (∃ t0, pending = some t0 ∧ I.1 = t0) ∨ ∃ e ∈ es, I.1 = timeOf e) := by
  intro es
  induction es with
  | nil =>
    intro r pending _ _ _ _
    refine ⟨?_, ?_, ?_⟩ <;> cases pending <;> simp [intervalsFrom]
  | cons e es ih =>
    intro r pending hvalid hchron hrf hpend
    rw [List.pairwise_cons] at hchron
    obtain ⟨hhead, htail⟩ := hchron
    cases e with
    | start t =>
      cases r with
      | true => simp [validFrom, stepRun] at hvalid
      | false =>
        have hpnone : pending = none := hrf rfl
        subst hpnone
        simp only [validFrom, stepRun] at hvalid
        obtain ⟨hpw, hwf, horig⟩ := ih true (some t) hvalid htail
          (by intro h; cases h)
          (by intro t0 h; injection h with h; subst h
              exact ⟨rfl, fun e2 he2 => hhead e2 he2⟩)
        refine ⟨hpw, hwf, ?_⟩
        intro I hI
        rcases horig I hI with ⟨t0, ht0, hI1⟩ | ⟨e2, he2, hI1⟩
        · injection ht0 with ht0
          subst ht0
          exact Or.inr ⟨TaskEvent.start t, List.mem_cons_self _ _, hI1⟩
        · exact Or.inr ⟨e2, List.mem_cons_of_mem _ he2, hI1⟩
    | skipped t =>
      cases r with
      | false => simp [validFrom, stepRun] at hvalid
      | true =>
        simp only [validFrom, stepRun] at hvalid
        obtain ⟨hpw, hwf, horig⟩ := ih true pending hvalid htail
          (by intro h; cases h)
          (by intro t0 h
              exact ⟨rfl, fun e2 he2 => (hpend t0 h).2 e2 (List.mem_cons_of_mem _ he2)⟩)
        refine ⟨?_, ?_, ?_⟩
        · cases pending with
          | none => exact hpw
          | some t0 => exact hpw
        · cases pending with
          | none => exact hwf
          | some t0 => exact hwf
        · intro I hI
          have hI2 : I ∈ intervalsFrom pending es := by
            cases pending with
            | none => exact hI
            | some t0 => exact hI
          rcases horig I hI2 with h | ⟨e2, he2, hI1⟩
          · exact Or.inl h
          · exact Or.inr ⟨e2, List.mem_cons_of_mem _ he2, hI1⟩
    | finish t =>
      cases r with
      | false => simp [validFrom, stepRun] at hvalid
      | true =>
        simp only [validFrom, stepRun] at hvalid
        obtain ⟨hpw, hwf, horig⟩ := ih false none hvalid htail
          (fun _ => rfl) (by intro t0 h; cases h)
        cases pending with
        | none =>
          refine ⟨hpw, hwf, ?_⟩
          intro I hI
          rcases horig I hI with ⟨t0, ht0, _⟩ | ⟨e2, he2, hI1⟩
          · cases ht0
          · exact Or.inr ⟨e2, List.mem_cons_of_mem _ he2, hI1⟩
        | some t0 =>
          have hbound := (hpend t0 rfl).2
          refine ⟨?_, ?_, ?_⟩
          · rw [show intervalsFrom (some t0) (TaskEvent.finish t :: es) =
                (t0, t) :: intervalsFrom none es from rfl]
            refine List.Pairwise.cons ?_ hpw
            intro J hJ
            rcases horig J hJ with ⟨t1, ht1, _⟩ | ⟨e2, he2, hJ1⟩
            · cases ht1
            · have : timeOf (TaskEvent.finish t) < timeOf e2 := hhead e2 he2
              simp only [timeOf] at this
              rw [hJ1]
              exact this
          · intro I hI
            rw [show intervalsFrom (some t0) (TaskEvent.finish t :: es) =
                (t0, t) :: intervalsFrom none es from rfl] at hI
            rcases List.mem_cons.mp hI with hI | hI
            · subst hI
              have := hbound (TaskEvent.finish t) (List.mem_cons_self _ _)
              simpa [timeOf] using this
            · exact hwf I hI
          · intro I hI
            rw [show intervalsFrom (some t0) (TaskEvent.finish t :: es) =
                (t0, t) :: intervalsFrom none es from rfl] at hI
            rcases List.mem_cons.mp hI with hI | hI
            · subst hI
              exact Or.inl ⟨t0, rfl, rfl⟩
            · rcases horig I hI with ⟨t1, ht1, _⟩ | ⟨e2, he2, hI1⟩
              · cases ht1
              · exact Or.inr ⟨e2, List.mem_cons_of_mem _ he2, hI1⟩

/-- C5: no two completed executions of the same task overlap.  Over any valid
concurrent history of `execute` calls (scheduler-due launches and manual
`run_task_now` triggers both go through the same `execute` and its
re-entrancy guard; a call made while `is_running` is set returns immediately,
producing only a `skipped` event) with strictly increasing timestamps, the
`[start, end]` intervals of the completed executions are pairwise disjoint
(each ends strictly before any later one starts), and the guard admits no
`start` while the flag is set and no `skipped` while it is clear. -/
theorem scheduled_task_no_overlap (es : List TaskEvent)
    (hvalid : validFrom false es = true)
    (hchron : List.Pairwise (fun a b => timeOf a < timeOf b) es) :
    (List.Pairwise (fun I J => I.2 < J.1) (intervals es) ∧
      ∀ I ∈ intervals es, I.1 < I.2) ∧
    (∀ t, stepRun true (TaskEvent.start t) = none) ∧
    (∀ t, stepRun false (TaskEvent.skipped t) = none) := by
  obtain ⟨hpw, hwf, _⟩ := intervalsFrom_spec es false none hvalid hchron
    (fun _ => rfl) (by intro t0 h; cases h)
  exact ⟨⟨hpw, hwf⟩, fun t => rfl, fun t => rfl⟩

/-- Witness for `scheduled_task_no_overlap`: a history with two completed
executions and one skipped overlapping call. -/
theorem scheduled_task_no_overlap_witness :
    (List.Pairwise (fun I J => I.2 < J.1)
        (intervals [TaskEvent.start 0, TaskEvent.skipped 1, TaskEvent.finish 2,
          TaskEvent.start 3, TaskEvent.finish 4]) ∧
      ∀ I ∈ intervals [TaskEvent.start 0, TaskEvent.skipped 1,
          TaskEvent.finish 2, TaskEvent.start 3, TaskEvent.finish 4],
        I.1 < I.2) ∧
    (∀ t, stepRun true (TaskEvent.start t) = none) ∧
    (∀ t, stepRun false (TaskEvent.skipped t) = none) :=
  scheduled_task_no_overlap
    [TaskEvent.start 0, TaskEvent.skipped 1, TaskEvent.finish 2,
      TaskEvent.start 3, TaskEvent.finish 4]
    (by rfl)
    (by norm_num [List.pairwise_cons, timeOf])

/-! ## Embeddings service
Source: src/services/embeddings.py, `EmbeddingsService`.  The sentence
transformer is an external collaborator, modelled as an oracle
`model : String → List ℚ`; `model t` stands for the (already normalized)
vector `self.model.encode(t)` produces.  The LRU cache is an association
list; the byte-budget eviction of `_add_to_cache` (driven by
`sys.getsizeof`, a memory-layout quantity) only removes entries, so theorems
about caches quantify over all cache contents rather than fix one eviction
schedule. -/

/-- Python `str.strip()`: remove leading and trailing whitespace (expressed
over the character list). -/
def pyStrip (s : String) : String :=
  String.mk
    (((s.data.dropWhile Char.isWhitespace).reverse.dropWhile
      Char.isWhitespace).reverse)

/-- Python `str.lower()` (expressed over the character list). -/
def pyLower (s : String) : String := String.mk (s.data.map Char.toLower)

/-- Cache-key normalization of `generate_embedding`:
`text.strip().lower()`. -/
def normKey (text : String) : String := pyLower (pyStrip text)

/-- The truncation at the top of `_generate_embedding_sync`:
`text[:8000] + "..."` when the text exceeds 8000 characters. -/
def truncateText (text : String) : String :=
  if 8000 < text.length then (text.take 8000) ++ "..." else text

/-- The guard `if not text or not text.strip()`: empty or whitespace-only. -/
def isBlank (text : String) : Bool := text == "" || pyStrip text == ""

/-- The embedding cache, keyed by normalized text. -/
def Cache : Type := List (String × List ℚ)

instance : DecidableEq Cache := by unfold Cache; exact inferInstance

/-- Dictionary insertion of `_add_to_cache` (`self._cache[key] = embedding`);
the preceding while-loop only evicts entries and is abstracted (see the
section comment). -/
def addToCache (key : String) (v : List ℚ) (cache : Cache) : Cache :=
  (key, v) :: cache.filter (fun p => p.1 != key)

/-- Embeds `_generate_embedding_sync`: truncate, then call the model (the
model output is already L2-normalized; normalization is part of the oracle). -/
def generate_embedding_sync (model : String → List ℚ) (text : String) :
    List ℚ :=
  model (truncateText text)

/-- Result of one `generate_embedding` call: the vector, the cache afterward,
and the list of texts passed to `model.encode` (for stating "the model was not
invoked"). -/
structure EmbedResult where
  vec : List ℚ
  cache : Cache
  modelCalls : List String

/-- Embeds `generate_embedding`: reject blank input (`ValueError`), otherwise
serve from the cache under the normalized key when allowed, else encode the
raw text and cache the result under the normalized key. -/
def generate_embedding (model : String → List ℚ) (cache : Cache)
    (use_cache : Bool) (text : String) : Except String EmbedResult :=
  if isBlank text then Except.error "Text cannot be empty"
  else
    let normalized_text := normKey text
    if use_cache then
      match cache.lookup normalized_text with
      | some v => Except.ok ⟨v, cache, []⟩
      | none =>
        let v := generate_embedding_sync model text
        Except.ok ⟨v, addToCache normalized_text v cache, [truncateText text]⟩
    else
      Except.ok ⟨generate_embedding_sync model text, cache, [truncateText text]⟩

/-- The first pass of `generate_embeddings_batch` for one element: blank
texts get an empty-list slot, cached texts their cached vector, the rest are
queued for processing (`texts_to_process`). -/
def classifySlot (cache : Cache) (use_cache : Bool) (text : String) :
    Sum (List ℚ) String :=
  if isBlank text then Sum.inl []
  else if use_cache then
    match cache.lookup (normKey text) with
    | some v => Sum.inl v
    | none => Sum.inr text
  else Sum.inr text

/-- The processing pass (`_process_texts_batch` and
`_generate_embeddings_batch_sync`): encode each queued text (truncated),
caching as it goes; resolved slots pass through.  The grouping into
`batch_size` chunks does not change any per-element result and is flattened
here.  Returns (vectors, final cache, texts passed to the model). -/
def processSlots (model : String → List ℚ) (use_cache : Bool) :
    List (Sum (List ℚ) String) → Cache → List (List ℚ) × Cache × List String
  | [], c => ([], c, [])
  | Sum.inl v :: rest, c =>
    let p := processSlots model use_cache rest c
    (v :: p.1, p.2.1, p.2.2)
  | Sum.inr t :: rest, c =>
    let v := model (truncateText t)
    let c2 := if use_cache then addToCache (normKey t) v c else c
    let p := processSlots model use_cache rest c2
    (v :: p.1, p.2.1, truncateText t :: p.2.2)

/-- Embeds `generate_embeddings_batch`: classify every element against the
incoming cache, then process the queued ones in order. -/
def generate_embeddings_batch (model : String → List ℚ) (cache : Cache)
    (use_cache : Bool) (texts : List String) :
    List (List ℚ) × Cache × List String :=
  processSlots model use_cache (texts.map (classifySlot cache use_cache)) cache

/-- A model distinguishing two raw texts that share one normalized cache key:
the cache key of both "Hello" and "hello" is "hello", but the model is called
on the raw text. -/
def c6Model : String → List ℚ := fun t => if t = "Hello" then [1] else [2]

/-- C6 counterexample: `generate_embedding` is keyed by `strip().lower()` but
encodes the raw text, so a cache entry created by embedding "Hello" is served
for the different input "hello".  With an empty cache, "hello" embeds to [2];
after "Hello" has been embedded (caching [1] under the key "hello"), the same
call on "hello" returns [1]: the presence of a cache entry created by
embedding another text changes which vector is returned. -/
theorem generate_embedding_cache_dependence :
    (generate_embedding c6Model [] true "Hello").toOption.map EmbedResult.vec
        = some [1] ∧
      (generate_embedding c6Model [] true "Hello").toOption.map
          EmbedResult.cache = some [("hello", [1])] ∧
      (generate_embedding c6Model [("hello", [1])] true "hello").toOption.map
          EmbedResult.vec = some [1] ∧
      (generate_embedding c6Model [] true "hello").toOption.map
          EmbedResult.vec = some [2] ∧
      ([1] : List ℚ) ≠ [2] := by
  refine ⟨rfl, rfl, rfl, rfl, by decide⟩

/-- Consistency of a cache with the model: every entry holds, under the
normalized key of some text, the vector the service would compute for that
text.  Every cache reachable by `generate_embedding` calls (including after
arbitrary evictions, which only remove entries) is of this shape. -/
def cacheConsistent (model : String → List ℚ) (cache : Cache) : Prop :=
  ∀ k v, cache.lookup k = some v →
    ∃ t, normKey t = k ∧ v = generate_embedding_sync model t

/-- C6 (amended): `generate_embedding` is pure up to cache-key normalization.
Provided the truncated model output is invariant under the `strip().lower()`
normalization used as the cache key, the vector returned for a non-blank text
is always the model's vector for that text, for every consistent cache state
(any entries present, absent or evicted) and whether caching is on or off.
Without that invariance the result can depend on cache contents (see the
counterexample): purity holds only at the granularity of normalized text. -/
theorem generate_embedding_normalized_purity (model : String → List ℚ)
    (hmodel : ∀ t1 t2, normKey t1 = normKey t2 →
      generate_embedding_sync model t1 = generate_embedding_sync model t2)
    (cache : Cache) (hc : cacheConsistent model cache) (use_cache : Bool)
    (text : String) (h : isBlank text = false) :
    (generate_embedding model cache use_cache text).toOption.map
        EmbedResult.vec = some (generate_embedding_sync model text) := by
  unfold generate_embedding
  rw [h]
  simp only [Bool.false_eq_true, if_false]
  cases use_cache with
  | false => rfl
  | true =>
    simp only [if_true]
    cases hl : cache.lookup (normKey text) with
    | none => rfl
    | some v =>
      obtain ⟨t, ht, hv⟩ := hc (normKey text) v hl
      simp only [Except.toOption, Option.map]
      rw [hv, hmodel t text ht]

/-- Witness for `generate_embedding_normalized_purity`: a constant model, the
empty cache (trivially consistent), input "hi". -/
theorem generate_embedding_normalized_purity_witness :
    (generate_embedding (fun _ => ([0] : List ℚ)) [] true "hi").toOption.map
        EmbedResult.vec =
      some (generate_embedding_sync (fun _ => ([0] : List ℚ)) "hi") :=
  generate_embedding_normalized_purity (fun _ => ([0] : List ℚ))
    (fun _ _ _ => rfl) []
    (by intro k v hkv; simp [List.lookup] at hkv)
    true "hi" (by decide)

/-- Helper: the vectors produced by the processing pass are a pointwise
function of the slots, independent of the cache being threaded through. -/
theorem processSlots_vecs (model : String → List ℚ) (use_cache : Bool) :
    ∀ (slots : List (Sum (List ℚ) String)) (c : Cache),
      (processSlots model use_cache slots c).1 =
        slots.map (Sum.elim id (fun t => model (truncateText t))) := by
  intro slots
  induction slots with
  | nil => intro c; rfl
  | cons s rest ih =>
    intro c
    cases s with
    | inl v => simp [processSlots, ih]
    | inr t => simp [processSlots, ih]

/-- Helper: every text the processing pass hands to the model comes from a
queued (`Sum.inr`) slot, truncated. -/
theorem processSlots_calls (model : String → List ℚ) (use_cache : Bool) :
    ∀ (slots : List (Sum (List ℚ) String)) (c : Cache),
      ∀ u ∈ (processSlots model use_cache slots c).2.2,
        ∃ t, Sum.inr t ∈ slots ∧ u = truncateText t := by
  intro slots
  induction slots with
  | nil => intro c u hu; simp [processSlots] at hu
  | cons s rest ih =>
    intro c u hu
    cases s with
    | inl v =>
      simp only [processSlots] at hu
      obtain ⟨t, ht, hut⟩ := ih c u hu
      exact ⟨t, List.mem_cons_of_mem _ ht, hut⟩
    | inr t0 =>
      simp only [processSlots, List.mem_cons] at hu
      rcases hu with hu | hu
      · exact ⟨t0, List.mem_cons_self _ _, hu⟩
      · obtain ⟨t, ht, hut⟩ := ih _ u hu
        exact ⟨t, List.mem_cons_of_mem _ ht, hut⟩

/-- Helper: the classification pass queues a slot only for a non-blank text,
and the queued payload is the raw text itself. -/
theorem classifySlot_inr (cache : Cache) (use_cache : Bool) (x t : String)
    (h : classifySlot cache use_cache x = Sum.inr t) :
    t = x ∧ isBlank x = false := by
  unfold classifySlot at h
  by_cases hb : isBlank x
  · simp [hb] at h
  · rw [Bool.not_eq_true] at hb
    cases use_cache with
    | false =>
      rw [hb] at h
      simp at h
      exact ⟨h.symm, hb⟩
    | true =>
      rw [hb] at h
      simp only [Bool.false_eq_true, if_false, if_true] at h
      cases hl : cache.lookup (normKey x) with
      | some v => rw [hl] at h; cases h
      | none =>
        rw [hl] at h
        injection h with h
        exact ⟨h.symm, hb⟩

/-- Model oracle for the blank-input scenarios. -/
def c10Model : String → List ℚ := fun _ => [5]

/-- C10 counterexample: on the whitespace-only batch `["   "]`,
`generate_embeddings_batch` does not report an invalid-input error — it
returns normally with an empty-list slot (and no model invocation), whereas
`generate_embedding` on the same input raises `ValueError("Text cannot be
empty")`.  The claimed per-element invalid-input error for the batch path
does not exist in the code. -/
theorem batch_blank_returns_empty_not_error :
    generate_embeddings_batch c10Model [] true ["   "] = ([[]], [], []) ∧
      generate_embedding c10Model [] true "   " =
        Except.error "Text cannot be empty" := by
  exact ⟨rfl, rfl⟩

/-- C10 (amended): blank input fails fast in `generate_embedding` with the
`ValueError` "Text cannot be empty", without calling the model;
`generate_embeddings_batch` never invokes the model on a blank element either,
but instead of reporting an error it fills that element's slot with the empty
list `[]`, keeping the output aligned with the input. -/
theorem embeddings_blank_fail_fast (model : String → List ℚ) (cache : Cache)
    (use_cache : Bool) :
    (∀ text, isBlank text = true →
      generate_embedding model cache use_cache text =
        Except.error "Text cannot be empty") ∧
    (∀ texts : List String,
      (generate_embeddings_batch model cache use_cache texts).1.length =
          texts.length ∧
        (∀ i (hi : i < texts.length)
          (hi2 : i <
            (generate_embeddings_batch model cache use_cache texts).1.length),
          isBlank (texts.get ⟨i, hi⟩) = true →
          (generate_embeddings_batch model cache use_cache texts).1.get
            ⟨i, hi2⟩ = []) ∧
        (∀ u ∈ (generate_embeddings_batch model cache use_cache texts).2.2,
          ∃ t ∈ texts, isBlank t = false ∧ u = truncateText t)) := by
  constructor
  · intro text h
    unfold generate_embedding
    rw [h]
    simp
  · intro texts
    refine ⟨?_, ?_, ?_⟩
    · unfold generate_embeddings_batch
      rw [processSlots_vecs]
      simp
    · intro i hi hi2 hblank
      have hvec : (generate_embeddings_batch model cache use_cache texts).1 =
          (texts.map (classifySlot cache use_cache)).map
            (Sum.elim id (fun t => model (truncateText t))) :=
        processSlots_vecs model use_cache _ cache
      rw [List.get_eq_getElem, List.getElem_of_eq hvec]
      simp only [List.getElem_map]
      rw [List.get_eq_getElem] at hblank
      unfold classifySlot
      rw [hblank]
      simp
    · intro u hu
      unfold generate_embeddings_batch at hu
      obtain ⟨t, ht, hut⟩ := processSlots_calls model use_cache _ cache u hu
      obtain ⟨x, hx, hcx⟩ := List.mem_map.mp ht
      obtain ⟨hterm, hxblank⟩ := classifySlot_inr cache use_cache x t hcx
      subst hterm
      exact ⟨t, hx, hxblank, hut⟩

/-- Witness for `embeddings_blank_fail_fast`: a whitespace-only single text,
and a batch with one blank and one non-blank element. -/
theorem embeddings_blank_fail_fast_witness :
    generate_embedding c10Model [] true " " =
        Except.error "Text cannot be empty" ∧
      (generate_embeddings_batch c10Model [] true [" ", "a"]).1.length = 2 ∧
      (generate_embeddings_batch c10Model [] true [" ", "a"]).1.get
        ⟨0, by decide⟩ = [] :=
  ⟨(embeddings_blank_fail_fast c10Model [] true).1 " " (by decide),
    ((embeddings_blank_fail_fast c10Model [] true).2 [" ", "a"]).1,
    ((embeddings_blank_fail_fast c10Model [] true).2 [" ", "a"]).2.1 0
      (by decide) (by decide) (by decide)⟩

/-! ## Relevance scoring
Source: src/agents/news_agent.py, `NewsAnalyzer`.  The LLM call
(`analyze_article`, including its retries inside pydantic-ai) is an oracle
`analyze : Article → Option NewsAnalysis`; `none` stands for an analysis that
raised (caught by `analyze_with_semaphore`, which converts it to `None`).
The semaphore only bounds concurrency; results are collected by
`asyncio.gather` in task order, i.e. input order. -/

/-- Model of `models/schemas.py` `NewsAnalysis` (the structured LLM output). -/
structure NewsAnalysis where
  summary : String
  relevance_score : ℚ
  categories : List String
  key_points : List String
  deriving DecidableEq, Repr

/-- Embeds `analyze_articles_batch`: one analysis slot per article, in input
order, failures as `none`. -/
def analyze_articles_batch (analyze : Article → Option NewsAnalysis)
    (articles : List Article) : List (Option NewsAnalysis) :=
  articles.map analyze

/-- Embeds `update_article_with_analysis`: copy the analysis fields onto a
copy of the article. -/
def update_article_with_analysis (article : Article)
    (analysis : NewsAnalysis) : Article :=
  { article with
    summary := some analysis.summary,
    relevance_score := some analysis.relevance_score,
    categories := analysis.categories,
    key_points := analysis.key_points }

/-- The filtering loop of `analyze_and_update_articles` over
`zip(articles, analyses)`: skip failed slots, keep sufficiently relevant
articles updated with their analysis. -/
def filterRelevant (min_relevance_score : ℚ) :
    List (Article × Option NewsAnalysis) → List Article
  | [] => []
  | (_, none) :: rest => filterRelevant min_relevance_score rest
  | (a, some an) :: rest =>
    if min_relevance_score ≤ an.relevance_score then
      update_article_with_analysis a an ::
        filterRelevant min_relevance_score rest
    else filterRelevant min_relevance_score rest

/-- Embeds `analyze_and_update_articles`: batch-analyze, then filter by the
caller-supplied minimum relevance score. -/
def analyze_and_update_articles (analyze : Article → Option NewsAnalysis)
    (articles : List Article) (min_relevance_score : ℚ) : List Article :=
  filterRelevant min_relevance_score
    (articles.zip (analyze_articles_batch analyze articles))

/-- C7: batch scoring isolation and filtering.  `analyze_articles_batch`
returns exactly one result per input article, aligned with input order: a
failed item's slot is `None` and every other slot is that item's analysis (a
single failure never aborts the batch).  `analyze_and_update_articles`
returns exactly the articles whose analysis succeeded with relevance at or
above the caller-supplied minimum, each updated with its analysis fields,
discarding the rest. -/
theorem analyze_batch_alignment_and_filter
    (analyze : Article → Option NewsAnalysis) (min_relevance_score : ℚ) :
    (∀ articles : List Article,
      (analyze_articles_batch analyze articles).length = articles.length) ∧
    (∀ (articles : List Article) (i : ℕ) (hi : i < articles.length)
      (hi2 : i < (analyze_articles_batch analyze articles).length),
      (analyze_articles_batch analyze articles).get ⟨i, hi2⟩ =
        analyze (articles.get ⟨i, hi⟩)) ∧
    (∀ articles : List Article,
      analyze_and_update_articles analyze articles min_relevance_score =
        articles.filterMap (fun a =>
          match analyze a with
          | some an =>
            if min_relevance_score ≤ an.relevance_score then
              some (update_article_with_analysis a an)
            else none
          | none => none)) := by
  refine ⟨?_, ?_, ?_⟩
  · intro articles
    simp [analyze_articles_batch]
  · intro articles i hi hi2
    unfold analyze_articles_batch
    rw [List.get_eq_getElem, List.get_eq_getElem]
    simp [List.getElem_map]
  · intro articles
    induction articles with
    | nil => rfl
    | cons a rest ih =>
      unfold analyze_and_update_articles analyze_articles_batch at ih ⊢
      rw [List.map_cons, List.zip_cons_cons, List.filterMap_cons]
      cases ha : analyze a with
      | none => simpa [filterRelevant, ha] using ih
      | some an =>
        by_cases hmin : min_relevance_score ≤ an.relevance_score
        · simp only [filterRelevant, ha, hmin, if_true]
          rw [ih]
        · simp only [filterRelevant, ha, hmin, if_false]
          rw [ih]

/-- A concrete article for exercising the scoring batch. -/
def c7Article : Article :=
  ⟨some 7, "t", "c", "u", 0, none, false, none, none, none, [], []⟩

/-- A concrete analysis oracle succeeding exactly on article 7 with score 80. -/
def c7Analyze : Article → Option NewsAnalysis :=
  fun a => if a.id = some 7 then some ⟨"s", 80, ["ai"], ["k"]⟩ else none

/-- Witness for `analyze_batch_alignment_and_filter` at the singleton batch
`[c7Article]`, slot 0. -/
theorem analyze_batch_alignment_and_filter_witness :
    (analyze_articles_batch c7Analyze [c7Article]).get ⟨0, by decide⟩ =
      c7Analyze (([c7Article] : List Article).get ⟨0, by decide⟩) :=
  (analyze_batch_alignment_and_filter c7Analyze 50).2.1 [c7Article] 0
    (by decide) (by decide)

/-! ## Scheduler: run/error counters and the manual-trigger boundary
Source: src/services/scheduler.py, `ScheduledTask._calculate_next_run`,
`ScheduledTask.execute`, `ScheduledTask.get_status`,
`TaskScheduler.run_task_now`, and src/api/routes.py, `run_scheduler_task`. -/

/-- The two mutually exclusive scheduling modes of a `ScheduledTask`. -/
inductive TaskSchedule
  | interval (minutes : ℤ)
  | dailyAt (hour : ℤ)
  deriving DecidableEq, Repr

/-- Counter-and-timing state of a `ScheduledTask`; instants are seconds since
the epoch (UTC). -/
structure TaskState where
  last_run : Option ℤ
  next_run : Option ℤ
  run_count : ℕ
  error_count : ℕ
  is_running : Bool
  deriving DecidableEq, Repr

/-- Embeds `_calculate_next_run`: an interval task first runs 10 seconds
after creation and thereafter `interval_minutes` after the start of the
previous run; a daily task runs at the given UTC hour, today if that instant
is still ahead, otherwise tomorrow. -/
def calculate_next_run (schedule : TaskSchedule) (last_run : Option ℤ)
    (now : ℤ) : ℤ :=
  match schedule with
  | .interval m =>
    match last_run with
    | none => now + 10
    | some lr => lr + m * 60
  | .dailyAt h =>
    let today := (now.fdiv 86400) * 86400 + h * 3600
    if today < now then today + 86400 else today

/-- `ScheduledTask.__init__`: fresh counters, `next_run` computed at
creation. -/
def taskInit (schedule : TaskSchedule) (now : ℤ) : TaskState :=
  { last_run := none,
    next_run := some (calculate_next_run schedule none now),
    run_count := 0, error_count := 0, is_running := false }

/-- Embeds `ScheduledTask.execute` (the `ok` oracle is the task function
completing versus raising): a call finding `is_running` set returns `False`
immediately; otherwise, on success `run_count` is incremented, on failure
`error_count` is incremented — `run_count` is not — and in both cases
`last_run` is set to the start time and `next_run` is recomputed at the end
time. -/
def execute (schedule : TaskSchedule) (s : TaskState)
    (startTime endTime : ℤ) (ok : Bool) : Bool × TaskState :=
  if s.is_running then (false, s)
  else if ok then
    (true,
      { last_run := some startTime,
        next_run :=
          some (calculate_next_run schedule (some startTime) endTime),
        run_count := s.run_count + 1, error_count := s.error_count,
        is_running := false })
  else
    (false,
      { last_run := some startTime,
        next_run :=
          some (calculate_next_run schedule (some startTime) endTime),
        run_count := s.run_count, error_count := s.error_count + 1,
        is_running := false })

/-- The `success_rate` field of `ScheduledTask.get_status`:
`(run_count - error_count) / run_count * 100`, `0` when `run_count` is 0. -/
def success_rate (s : TaskState) : ℚ :=
  if 0 < s.run_count then
    ((s.run_count : ℚ) - (s.error_count : ℚ)) / (s.run_count : ℚ) * 100
  else 0

/-- C8: the code contradicts the claim that every attempt increments
`run_count`.  A fresh interval task that succeeds once (started at 20, ended
at 21) and then fails once (started at 60, ended at 61) has seen two attempts
with one success, but ends with `run_count = 1` (the failed attempt only
incremented `error_count`), so `get_status` reports a success rate of 0
instead of the actual 1/2 — with more failures than successes the reported
rate even becomes negative.  `next_run` is indeed recomputed on both paths
(here from the failed attempt's start time 60). -/
theorem execute_run_count_divergence :
    ((execute (TaskSchedule.interval 30)
        (execute (TaskSchedule.interval 30)
          (taskInit (TaskSchedule.interval 30) 0) 20 21 true).2
        60 61 false).2.run_count = 1 ∧
      (execute (TaskSchedule.interval 30)
        (execute (TaskSchedule.interval 30)
          (taskInit (TaskSchedule.interval 30) 0) 20 21 true).2
        60 61 false).2.error_count = 1 ∧
      (execute (TaskSchedule.interval 30)
        (execute (TaskSchedule.interval 30)
          (taskInit (TaskSchedule.interval 30) 0) 20 21 true).2
        60 61 false).2.next_run = some 1860) ∧
    success_rate (execute (TaskSchedule.interval 30)
        (execute (TaskSchedule.interval 30)
          (taskInit (TaskSchedule.interval 30) 0) 20 21 true).2
        60 61 false).2 = 0 ∧
    (0 : ℚ) ≠ 1 / 2 := by
  refine ⟨⟨rfl, rfl, rfl⟩, ?_, by norm_num⟩
  norm_num [execute, taskInit, success_rate]

/-- `TaskScheduler.get_task`: linear scan of the registered tasks by name. -/
def get_task (tasks : List (String × TaskSchedule × TaskState))
    (name : String) : Option (TaskSchedule × TaskState) :=
  (tasks.find? (fun p => p.1 == name)).map (fun p => p.2)

/-- Embeds `TaskScheduler.run_task_now`: `False` when the name is not
registered, otherwise the boolean result of `execute`. -/
def run_task_now (tasks : List (String × TaskSchedule × TaskState))
    (name : String) (startTime endTime : ℤ) (ok : Bool) : Bool :=
  match get_task tasks name with
  | none => false
  | some (sch, st) => (execute sch st startTime endTime ok).1

/-- Embeds the API route `run_scheduler_task`: a `False` from `run_task_now`
becomes one single `HTTPException(404, "... not found or execution failed")`,
a `True` a success message. -/
def run_scheduler_task_route (tasks : List (String × TaskSchedule × TaskState))
    (name : String) (startTime endTime : ℤ) (ok : Bool) : Except ℕ String :=
  if run_task_now tasks name startTime endTime ok then
    Except.ok "executed successfully"
  else Except.error 404

/-- A one-task scheduler for the manual-trigger scenarios. -/
def c9Tasks : List (String × TaskSchedule × TaskState) :=
  [("fetch_articles", TaskSchedule.interval 30,
    taskInit (TaskSchedule.interval 30) 0)]

/-- C9 counterexample: triggering the registered task "fetch_articles" with a
failing execution and triggering the unknown name "missing" produce the very
same outcome — `run_task_now` returns `False` for both, and the API route
maps both to the same 404 — so the two failure modes are not distinguishable
at the manual-trigger boundary. -/
theorem run_task_now_indistinguishable :
    run_task_now c9Tasks "fetch_articles" 0 1 false = false ∧
      run_task_now c9Tasks "missing" 0 1 false = false ∧
      run_scheduler_task_route c9Tasks "fetch_articles" 0 1 false =
        run_scheduler_task_route c9Tasks "missing" 0 1 false := by
  exact ⟨rfl, rfl, rfl⟩

/-- C9 (amended): the two failure modes are reported identically, not
distinctly: an unregistered name yields `False` (hence a 404 from the route)
whatever the execution oracle would do, and a failing execution of a
registered task also yields `False` and the same 404 — only success is
distinguished at the manual-trigger boundary. -/
theorem run_task_now_reports_false_for_both
    (tasks : List (String × TaskSchedule × TaskState)) (name : String)
    (startTime endTime : ℤ) :
    (get_task tasks name = none → ∀ ok,
      run_scheduler_task_route tasks name startTime endTime ok =
        Except.error 404) ∧
    run_scheduler_task_route tasks name startTime endTime false =
      Except.error 404 := by
  constructor
  · intro h ok
    unfold run_scheduler_task_route run_task_now
    rw [h]
    simp
  · unfold run_scheduler_task_route run_task_now
    cases h : get_task tasks name with
    | none => simp
    | some p =>
      obtain ⟨sch, st⟩ := p
      simp only
      unfold execute
      by_cases hr : st.is_running <;> simp [hr]

/-- Witness for `run_task_now_reports_false_for_both` on the concrete one-task
scheduler: unknown name "missing", and the registered task failing. -/
theorem run_task_now_reports_false_for_both_witness :
    run_scheduler_task_route c9Tasks "missing" 0 1 true = Except.error 404 ∧
      run_scheduler_task_route c9Tasks "fetch_articles" 0 1 false =
        Except.error 404 :=
  ⟨(run_task_now_reports_false_for_both c9Tasks "missing" 0 1).1 rfl true,
    (run_task_now_reports_false_for_both c9Tasks "fetch_articles" 0 1).2⟩

end AINews
